import Mathlib

/-
Verification of the FinWalletCLI ledger engine (src/backend/main.py, class Wallet).

Shallow embedding notes:
- Money amounts are Python floats in the source; they are modelled here as Int
  (exact arithmetic).  Every arithmetic step the engine performs is a sum,
  difference or order comparison, and every amount appearing in the spec, the
  tests and the claims is an integer, so the embedding is exact on the inputs
  the development reasons about.
- The two recognized categories "Доход" (Income) and "Расход" (Expense) are an
  inductive type; rows of the ledger store one of them, matching the data model
  (entries are only ever created by add_entry, which rejects any other string).
- pandas dates are modelled as year/month/day triples.  re.match of the pattern
  r"\d{4}-\d{2}-\d{2}" is an anchored prefix match (no end anchor).
  pd.to_datetime(s, format="%Y-%m-%d") is modelled as a strict full-string
  parse that also enforces calendar validity and the pandas Timestamp range
  (midnight timestamps exist exactly for dates 1677-09-22 .. 2262-04-11);
  a failing parse raises ValueError in the source, modelled as an explicit
  outcome.  pd.Timestamp.now().date() is passed in as an explicit `today`
  argument.
- Operations return the new wallet state together with an outcome describing
  which message/exception path the Python code took.  Python truthiness of the
  optional arguments (None, empty string and 0 are falsy) is modelled
  explicitly at each use site, mirroring the source line by line.
-/

namespace FinWallet

/-- The two recognized wallet categories, `self.CATEGORIES = ("Доход", "Расход")`. -/
inductive Category
  | income
  | expense
deriving DecidableEq

/-- The stored string of a category (the source stores the Russian strings). -/
def catStr : Category → String
  | .income => "Доход"
  | .expense => "Расход"

/-- Lookup of a category string, `self.BALANCE_CHANGERS.get(category)`:
some category if the string is one of the two keys, none otherwise. -/
def catOf (s : String) : Option Category :=
  if s = "Доход" then some Category.income
  else if s = "Расход" then some Category.expense
  else none

/-- A calendar date (pandas Timestamp with no time component). -/
structure Date where
  year : Nat
  month : Nat
  day : Nat
deriving DecidableEq

/-- Anchored prefix match of `self.DATE_PATTERN`, the regex \d{4}-\d{2}-\d{2}:
re.match succeeds iff the first ten characters have the digit/dash shape;
any trailing characters are ignored by re.match. -/
def datePatternMatch (s : String) : Bool :=
  match s.data with
  | y1 :: y2 :: y3 :: y4 :: c1 :: m1 :: m2 :: c2 :: d1 :: d2 :: _ =>
    y1.isDigit && y2.isDigit && y3.isDigit && y4.isDigit && c1 == '-' &&
      m1.isDigit && m2.isDigit && c2 == '-' && d1.isDigit && d2.isDigit
  | _ => false

/-- Gregorian leap year rule. -/
def isLeap (y : Nat) : Bool := (y % 4 == 0 && y % 100 != 0) || y % 400 == 0

/-- Days in a month of a given year. -/
def daysInMonth (y m : Nat) : Nat :=
  if m = 2 then (if isLeap y then 29 else 28)
  else if m = 4 ∨ m = 6 ∨ m = 9 ∨ m = 11 then 30
  else 31

/-- Lexicographic order on dates. -/
def dateLE (a b : Date) : Prop :=
  a.year < b.year ∨ (a.year = b.year ∧
    (a.month < b.month ∨ (a.month = b.month ∧ a.day ≤ b.day)))

instance (a b : Date) : Decidable (dateLE a b) := by
  unfold dateLE
  infer_instance

/-- Numeric value of a list of decimal digit characters. -/
def digitsVal (cs : List Char) : Nat := cs.foldl (fun a c => 10 * a + (c.toNat - 48)) 0

/-- Strict parse modelling pd.to_datetime(s, format="%Y-%m-%d"): the whole
string must be consumed (ten characters exactly), the components must form a
real calendar date, and the result must fit in the pandas Timestamp range
(midnight timestamps exist exactly for 1677-09-22 .. 2262-04-11); any failure
raises ValueError in the source, modelled as `none` here. -/
def parseYmd (s : String) : Option Date :=
  match s.data with
  | [y1, y2, y3, y4, c1, m1, m2, c2, d1, d2] =>
    if (y1.isDigit && y2.isDigit && y3.isDigit && y4.isDigit && c1 == '-' &&
        m1.isDigit && m2.isDigit && c2 == '-' && d1.isDigit && d2.isDigit) then
      let y := digitsVal [y1, y2, y3, y4]
      let mo := digitsVal [m1, m2]
      let dy := digitsVal [d1, d2]
      if 1 ≤ mo ∧ mo ≤ 12 ∧ 1 ≤ dy ∧ dy ≤ daysInMonth y mo ∧
          dateLE ⟨1677, 9, 22⟩ ⟨y, mo, dy⟩ ∧ dateLE ⟨y, mo, dy⟩ ⟨2262, 4, 11⟩ then
        some ⟨y, mo, dy⟩
      else none
    else none
  | _ => none

/-- One ledger row.  The id of a row is its position in the list: add_entry
appends with ignore_index=True, so the DataFrame labels are always 0..n-1. -/
structure Entry where
  date : Date
  category : Category
  amount : Int
  description : String
deriving DecidableEq

/-- The wallet state: the DataFrame rows plus the cached balance attribute. -/
structure Wallet where
  data : List Entry
  balance : Int
deriving DecidableEq

/-- Sum of amounts of the rows whose category is Income
(`self.data[self.data["category"] == "Доход"]["amount"].sum()`). -/
def sumIncome (l : List Entry) : Int :=
  (l.map fun e => if e.category = Category.income then e.amount else 0).sum

/-- Sum of amounts of the rows whose category is Expense. -/
def sumExpense (l : List Entry) : Int :=
  (l.map fun e => if e.category = Category.expense then e.amount else 0).sum

/-- The spec invariant: the cached balance equals sum(Income) - sum(Expense)
over the stored rows. -/
def SumInv (w : Wallet) : Prop :=
  w.balance = sumIncome w.data - sumExpense w.data

/-- Signed contribution of one row to the balance. -/
def signed (e : Entry) : Int :=
  if e.category = Category.income then e.amount else -e.amount

/-- Signed sum of all rows. -/
def sumSigned (l : List Entry) : Int := (l.map signed).sum

/-- A freshly created wallet with no persisted file: empty table, balance 0
(the recomputation in __set_balance sums an empty frame). -/
def emptyWallet : Wallet := { data := [], balance := 0 }

/-- A wallet loaded from persisted rows: __load_data reads the table and
__set_balance recomputes the balance as sum(Income) - sum(Expense). -/
def loadWallet (rows : List Entry) : Wallet :=
  { data := rows, balance := sumIncome rows - sumExpense rows }

/-- Outcome of Wallet.add_entry, identifying the message/exception path:
ok = row appended and saved; invalid = the guard chain was falsy and the
generic validation message printed; insufficient = decrease_balance refused
(insufficient funds message); typeError = caught TypeError (missing required
field or unrecognized category, "Вы не заполнили обязательные поля");
dateRaise = pd.to_datetime raised an uncaught ValueError after the balance
was already changed. -/
inductive AddOutcome
  | ok
  | invalid
  | insufficient
  | typeError
  | dateRaise
deriving DecidableEq

/-- Wallet.add_entry.  The guard chain evaluates in source order:
category truthiness, description truthiness and length, then the balance
changer looked up by category (TypeError when the lookup returns None or the
amount is missing; Income adds unconditionally, Expense only if the result
stays nonnegative).  Only then is the row built: a date that re.match-es the
pattern is parsed strictly (ValueError escapes, with the balance already
updated but no row appended); otherwise today's date is used. -/
def add_entry (w : Wallet) (today : Date) (category date : Option String)
    (amount : Option Int) (description : Option String) : Wallet × AddOutcome :=
  match category, description with
  | some cs, some ds =>
    if cs = "" then (w, AddOutcome.invalid)
    else if ds = "" ∨ ¬ ds.length < 64 then (w, AddOutcome.invalid)
    else
      match catOf cs with
      | none => (w, AddOutcome.typeError)
      | some c =>
        match amount with
        | none => (w, AddOutcome.typeError)
        | some m =>
          if c = Category.expense ∧ w.balance - m < 0 then (w, AddOutcome.insufficient)
          else
            let bal2 : Int := if c = Category.expense then w.balance - m else w.balance + m
            match date with
            | none =>
              ({ data := w.data ++ [⟨today, c, m, ds⟩], balance := bal2 }, AddOutcome.ok)
            | some dstr =>
              if datePatternMatch dstr then
                match parseYmd dstr with
                | some d =>
                  ({ data := w.data ++ [⟨d, c, m, ds⟩], balance := bal2 }, AddOutcome.ok)
                | none => ({ data := w.data, balance := bal2 }, AddOutcome.dateRaise)
              else
                ({ data := w.data ++ [⟨today, c, m, ds⟩], balance := bal2 }, AddOutcome.ok)
  | none, _ => (w, AddOutcome.invalid)
  | some _, none => (w, AddOutcome.invalid)

/-- Outcome of Wallet.edit_entry: ok = ran to the final save; keyError =
caught KeyError from the row lookup ("Номер записи некорректен");
dateRaise = pd.to_datetime raised an uncaught ValueError in the date step
(earlier in-memory field changes stick, nothing is saved). -/
inductive EditOutcome
  | ok
  | keyError
  | dateRaise
deriving DecidableEq

/-- In-place update of the row at position j (no-op when out of range),
modelling `self.data.loc[index, col] = value`. -/
def modifyRow (l : List Entry) (j : Nat) (f : Entry → Entry) : List Entry :=
  match l, j with
  | [], _ => []
  | e :: es, 0 => f e :: es
  | e :: es, j + 1 => e :: modifyRow es j f

/-- Wallet.__change_category combined with the caller's category assignment.
prev_amount is the row's amount; curr_amount is the supplied amount if truthy,
else prev_amount; the tentative balance subtracts both for Расход and adds
both otherwise; on success the balance is committed only when the supplied
amount is falsy (`if not amount`), and the caller sets the row category. -/
def changeCategory (w : Wallet) (c : Category) (j : Nat) (amount : Option Int) : Wallet :=
  match w.data[j]? with
  | none => w
  | some row =>
    let prevAmount := row.amount
    let currAmount : Int :=
      match amount with
      | some m => if m = 0 then prevAmount else m
      | none => prevAmount
    let fake : Int :=
      if c = Category.expense then w.balance - prevAmount - currAmount
      else w.balance + prevAmount + currAmount
    if 0 ≤ fake then
      { data := modifyRow w.data j fun r => { r with category := c },
        balance :=
          match amount with
          | some m => if m = 0 then fake else w.balance
          | none => fake }
    else w

/-- Wallet.__change_amount combined with the caller's amount assignment.
prev_amount is the row's amount times pow(-1, 1 if prev_category == category
else 0), i.e. negated exactly when the category did not change; the tentative
balance subtracts prev_amount and the new amount for Расход and adds both
otherwise; on success the balance is committed and the caller sets the row
amount. -/
def changeAmount (w : Wallet) (prevCat : Category) (j : Nat) (m : Int) : Wallet :=
  match w.data[j]? with
  | none => w
  | some row =>
    let prevSigned : Int := row.amount * (if prevCat = row.category then -1 else 1)
    let fake : Int :=
      if row.category = Category.expense then w.balance - prevSigned - m
      else w.balance + prevSigned + m
    if 0 ≤ fake then
      { data := modifyRow w.data j fun r => { r with amount := m }, balance := fake }
    else w

/-- The description step of Wallet.edit_entry: the description is applied
when truthy and shorter than MAX_DESC_LENGTH. -/
def descStep (v : Wallet) (j : Nat) (description : Option String) : Wallet :=
  match description with
  | some ds =>
    if ds ≠ "" ∧ ds.length < 64 then
      { v with data := modifyRow v.data j fun r => { r with description := ds } }
    else v
  | none => v

/-- The amount and description steps of Wallet.edit_entry: the amount is
applied when truthy and __change_amount accepts it, then the description
step runs. -/
def editTail (w : Wallet) (prevCat : Category) (j : Nat)
    (amount : Option Int) (description : Option String) : Wallet :=
  descStep
    (match amount with
     | some m => if m = 0 then w else changeAmount w prevCat j m
     | none => w) j description

/-- The category step of Wallet.edit_entry: the category is applied when
truthy (`category and`), one of the recognized values (`in self.CATEGORIES`)
and different from the row's current category, and __change_category accepts
the change. -/
def categoryStep (w : Wallet) (j : Nat) (row0 : Entry) (category : Option String)
    (amount : Option Int) : Wallet :=
  match category with
  | some cs =>
    match catOf cs with
    | some c => if c ≠ row0.category then changeCategory w c j amount else w
    | none => w
  | none => w

/-- Wallet.edit_entry.  The row lookup raises KeyError for an unknown label
(negative or out of range); prev_category is read before any change; the
category step runs first; the date is applied when truthy and matching the
pattern (a strict-parse failure raises ValueError, keeping the in-memory
changes made so far and skipping the remaining fields and the save); then the
amount and description steps run. -/
def edit_entry (w : Wallet) (index : Int) (category date : Option String)
    (amount : Option Int) (description : Option String) : Wallet × EditOutcome :=
  if index < 0 then (w, EditOutcome.keyError)
  else
    match w.data[index.toNat]? with
    | none => (w, EditOutcome.keyError)
    | some row0 =>
      let j := index.toNat
      let prevCat := row0.category
      let w1 := categoryStep w j row0 category amount
      match date with
      | some dstr =>
        if dstr ≠ "" ∧ datePatternMatch dstr = true then
          match parseYmd dstr with
          | some d =>
            (editTail { w1 with data := modifyRow w1.data j fun r => { r with date := d } }
              prevCat j amount description, EditOutcome.ok)
          | none => (w1, EditOutcome.dateRaise)
        else (editTail w1 prevCat j amount description, EditOutcome.ok)
      | none => (editTail w1 prevCat j amount description, EditOutcome.ok)

/-- Result of Wallet.search_entries: row = single-row frame from the id
lookup; rows = an equality filter result; notFound = caught KeyError from the
id lookup; searchError = caught error comparing the date column with the
given string; nothing = fell through every branch, returning None. -/
inductive SearchResult
  | row (e : Entry)
  | rows (l : List Entry)
  | notFound
  | searchError
  | nothing
deriving DecidableEq

/-- The amount branch of search_entries: used when the amount is truthy. -/
def searchByAmount (w : Wallet) (amount : Option Int) : SearchResult :=
  match amount with
  | some m => if m ≠ 0 then SearchResult.rows (w.data.filter fun e => e.amount == m)
              else SearchResult.nothing
  | none => SearchResult.nothing

/-- The date branch of search_entries: a truthy date string is coerced to a
Timestamp for the elementwise comparison (modelled by the strict parse; a
non-coercible string makes the comparison raise, caught as searchError),
otherwise control falls through to the amount branch. -/
def searchByDate (w : Wallet) (date : Option String) (amount : Option Int) : SearchResult :=
  match date with
  | some dstr =>
    if dstr ≠ "" then
      match parseYmd dstr with
      | some d => SearchResult.rows (w.data.filter fun e => e.date == d)
      | none => SearchResult.searchError
    else searchByAmount w amount
  | none => searchByAmount w amount

/-- Wallet.search_entries.  `if index or index == 0` is true for every int
including 0 and false for None; a present id does a label lookup (KeyError
when absent, including negative labels); otherwise the first truthy criterion
among category, date, amount filters by equality; with no truthy criterion
the function returns None. -/
def search_entries (w : Wallet) (index : Option Int) (category date : Option String)
    (amount : Option Int) : SearchResult :=
  match index with
  | some i =>
    if i < 0 then SearchResult.notFound
    else
      match w.data[i.toNat]? with
      | some e => SearchResult.row e
      | none => SearchResult.notFound
  | none =>
    match category with
    | some cs =>
      if cs ≠ "" then SearchResult.rows (w.data.filter fun e => catStr e.category == cs)
      else searchByDate w date amount
    | none => searchByDate w date amount

/-- One call of the mutating interface, for reasoning about sequences. -/
inductive Call
  | addCall (category date : Option String) (amount : Option Int) (description : Option String)
  | editCall (index : Int) (category date : Option String) (amount : Option Int)
      (description : Option String)

/-- Run one call; the Bool records whether it was successful (outcome ok). -/
def callOk (today : Date) (w : Wallet) : Call → Wallet × Bool
  | Call.addCall c d a ds =>
    let r := add_entry w today c d a ds
    (r.1, r.2 == AddOutcome.ok)
  | Call.editCall i c d a ds =>
    let r := edit_entry w i c d a ds
    (r.1, r.2 == EditOutcome.ok)

/-- Run a sequence of calls; the Bool records whether every call succeeded. -/
def runCalls (today : Date) (w : Wallet) : List Call → Wallet × Bool
  | [] => (w, true)
  | c :: cs =>
    let r := callOk today w c
    let rest := runCalls today r.1 cs
    (rest.1, r.2 && rest.2)

/-- An addCall carries a positive amount (other calls are unconstrained). -/
def callPos : Call → Bool
  | Call.addCall _ _ (some m) _ => decide (0 < m)
  | _ => true

/-! ### Arithmetic facts about the signed row sum -/

lemma sumSigned_nil : sumSigned [] = 0 := rfl

lemma sumSigned_cons (e : Entry) (l : List Entry) :
    sumSigned (e :: l) = signed e + sumSigned l := by
  simp [sumSigned]

lemma sumSigned_append (l1 l2 : List Entry) :
    sumSigned (l1 ++ l2) = sumSigned l1 + sumSigned l2 := by
  simp [sumSigned]

lemma sumIncome_sub_sumExpense (l : List Entry) :
    sumIncome l - sumExpense l = sumSigned l := by
  induction l with
  | nil => rfl
  | cons e t ih =>
    simp only [sumIncome, sumExpense, sumSigned, List.map_cons, List.sum_cons] at ih ⊢
    cases he : e.category <;> simp [signed, he] <;> omega

/-- The spec invariant restated through the signed sum. -/
lemma sumInv_iff (w : Wallet) : SumInv w ↔ w.balance = sumSigned w.data := by
  rw [SumInv, sumIncome_sub_sumExpense]

/-! ### Facts about the in-place row update -/

lemma getElem?_modifyRow_self (l : List Entry) (j : Nat) (f : Entry → Entry) (e : Entry)
    (hrow : l[j]? = some e) : (modifyRow l j f)[j]? = some (f e) := by
  induction l generalizing j with
  | nil => simp at hrow
  | cons a t ih =>
    cases j with
    | zero => simp at hrow; simp [modifyRow, hrow]
    | succ k =>
      simp only [List.getElem?_cons_succ] at hrow
      simpa [modifyRow] using ih k hrow

lemma getElem?_modifyRow_ne (l : List Entry) (j k : Nat) (f : Entry → Entry)
    (hne : k ≠ j) : (modifyRow l j f)[k]? = l[k]? := by
  induction l generalizing j k with
  | nil => simp [modifyRow]
  | cons a t ih =>
    cases j with
    | zero =>
      cases k with
      | zero => exact absurd rfl hne
      | succ k2 => simp [modifyRow]
    | succ j2 =>
      cases k with
      | zero => simp [modifyRow]
      | succ k2 =>
        simp only [modifyRow, List.getElem?_cons_succ]
        exact ih j2 k2 (by omega)

lemma sumSigned_modifyRow (l : List Entry) (j : Nat) (f : Entry → Entry) (e : Entry)
    (hrow : l[j]? = some e) :
    sumSigned (modifyRow l j f) = sumSigned l - signed e + signed (f e) := by
  induction l generalizing j with
  | nil => simp at hrow
  | cons a t ih =>
    cases j with
    | zero =>
      simp at hrow
      subst hrow
      simp [modifyRow, sumSigned_cons]
      omega
    | succ k =>
      simp only [List.getElem?_cons_succ] at hrow
      simp only [modifyRow, sumSigned_cons, ih k hrow]
      omega

lemma sumSigned_modifyRow_keep (l : List Entry) (j : Nat) (f : Entry → Entry)
    (h : ∀ r, signed (f r) = signed r) :
    sumSigned (modifyRow l j f) = sumSigned l := by
  induction l generalizing j with
  | nil => rfl
  | cons a t ih =>
    cases j with
    | zero => simp [modifyRow, sumSigned_cons, h a]
    | succ k => simp [modifyRow, sumSigned_cons, ih k]

lemma modifyRow_id (l : List Entry) (j : Nat) : modifyRow l j (fun r => r) = l := by
  induction l generalizing j with
  | nil => rfl
  | cons a t ih =>
    cases j with
    | zero => simp [modifyRow]
    | succ k => simp [modifyRow, ih]

/-! ### Invariant behaviour of the edit steps -/

lemma changeCategory_falsy_inv (w : Wallet) (c : Category) (j : Nat) (a : Option Int)
    (row : Entry) (hrow : w.data[j]? = some row) (hne : c ≠ row.category)
    (hfalsy : a = none ∨ a = some 0)
    (hinv : w.balance = sumSigned w.data) :
    (changeCategory w c j a).balance = sumSigned (changeCategory w c j a).data := by
  have hsum := sumSigned_modifyRow w.data j (fun r => { r with category := c }) row hrow
  obtain ⟨rd, rc, ra, rdesc⟩ := row
  rcases hfalsy with rfl | rfl <;> cases c <;> cases rc <;>
    simp_all [changeCategory, hrow, signed] <;>
    split <;> simp_all <;> omega

lemma changeCategory_truthy_cases (w : Wallet) (c : Category) (j : Nat) (m : Int)
    (row : Entry) (hrow : w.data[j]? = some row) (hm : m ≠ 0) :
    changeCategory w c j (some m) = w ∨
    (0 ≤ (if c = Category.expense then w.balance - row.amount - m
          else w.balance + row.amount + m) ∧
     changeCategory w c j (some m) =
       { data := modifyRow w.data j fun r => { r with category := c },
         balance := w.balance }) := by
  obtain ⟨rd, rc, ra, rdesc⟩ := row
  simp only [changeCategory, hrow, if_neg hm]
  by_cases hg : 0 ≤ (if c = Category.expense then w.balance - ra - m else w.balance + ra + m)
  · rw [if_pos hg]
    exact Or.inr ⟨hg, rfl⟩
  · rw [if_neg hg]
    exact Or.inl rfl

lemma changeAmount_same_inv (w : Wallet) (pc : Category) (j : Nat) (m : Int)
    (row : Entry) (hrow : w.data[j]? = some row) (heq : pc = row.category)
    (hinv : w.balance = sumSigned w.data) :
    (changeAmount w pc j m).balance = sumSigned (changeAmount w pc j m).data := by
  have hsum := sumSigned_modifyRow w.data j (fun r => { r with amount := m }) row hrow
  obtain ⟨rd, rc, ra, rdesc⟩ := row
  subst heq
  cases pc <;>
    simp_all [changeAmount, hrow, signed] <;>
    split <;> simp_all <;> omega

lemma changeAmount_diff_inv (w : Wallet) (pc : Category) (j : Nat) (m : Int)
    (row : Entry) (hrow : w.data[j]? = some row) (hne : pc ≠ row.category)
    (hskew : w.balance = sumSigned w.data + signed { row with category := pc } - signed row)
    (hguard : 0 ≤ (if row.category = Category.expense then w.balance - row.amount - m
                   else w.balance + row.amount + m)) :
    (changeAmount w pc j m).balance = sumSigned (changeAmount w pc j m).data := by
  have hsum := sumSigned_modifyRow w.data j (fun r => { r with amount := m }) row hrow
  obtain ⟨rd, rc, ra, rdesc⟩ := row
  cases pc <;> cases rc <;>
    simp_all [changeAmount, hrow, signed] <;> omega

lemma descStep_inv (v : Wallet) (j : Nat) (ds : Option String)
    (hinv : v.balance = sumSigned v.data) :
    (descStep v j ds).balance = sumSigned (descStep v j ds).data := by
  cases ds with
  | none => exact hinv
  | some s =>
    simp only [descStep]
    split
    · show v.balance = sumSigned (modifyRow v.data j fun r => { r with description := s })
      rw [sumSigned_modifyRow_keep v.data j (fun r => { r with description := s })
        (fun r => rfl)]
      exact hinv
    · exact hinv

lemma editTail_falsy_inv (v : Wallet) (pc : Category) (j : Nat) (a : Option Int)
    (ds : Option String) (hfalsy : a = none ∨ a = some 0)
    (hinv : v.balance = sumSigned v.data) :
    (editTail v pc j a ds).balance = sumSigned (editTail v pc j a ds).data := by
  rcases hfalsy with rfl | rfl <;>
    simp only [editTail, if_pos rfl] <;>
    exact descStep_inv _ _ _ hinv

lemma editTail_same_inv (v : Wallet) (pc : Category) (j : Nat) (a : Option Int)
    (ds : Option String) (row : Entry) (hrow : v.data[j]? = some row)
    (heq : pc = row.category) (hinv : v.balance = sumSigned v.data) :
    (editTail v pc j a ds).balance = sumSigned (editTail v pc j a ds).data := by
  cases a with
  | none => exact editTail_falsy_inv v pc j none ds (Or.inl rfl) hinv
  | some m =>
    by_cases hm : m = 0
    · subst hm
      exact editTail_falsy_inv v pc j (some 0) ds (Or.inr rfl) hinv
    · simp only [editTail, if_neg hm]
      exact descStep_inv _ _ _ (changeAmount_same_inv v pc j m row hrow heq hinv)

lemma editTail_skew_inv (v : Wallet) (pc : Category) (j : Nat) (m : Int)
    (ds : Option String) (row : Entry) (hrow : v.data[j]? = some row)
    (hm : m ≠ 0) (hne : pc ≠ row.category)
    (hskew : v.balance = sumSigned v.data + signed { row with category := pc } - signed row)
    (hguard : 0 ≤ (if row.category = Category.expense then v.balance - row.amount - m
                   else v.balance + row.amount + m)) :
    (editTail v pc j (some m) ds).balance = sumSigned (editTail v pc j (some m) ds).data := by
  simp only [editTail, if_neg hm]
  exact descStep_inv _ _ _ (changeAmount_diff_inv v pc j m row hrow hne hskew hguard)

lemma catStep_inv_falsy (w : Wallet) (j : Nat) (row0 : Entry) (cOpt : Option String)
    (a : Option Int) (hrow : w.data[j]? = some row0) (hfalsy : a = none ∨ a = some 0)
    (hinv : w.balance = sumSigned w.data) :
    (categoryStep w j row0 cOpt a).balance = sumSigned (categoryStep w j row0 cOpt a).data := by
  cases cOpt with
  | none => exact hinv
  | some cs =>
    cases hcat : catOf cs with
    | none => simp only [categoryStep, hcat]; exact hinv
    | some c =>
      by_cases hne : c ≠ row0.category
      · simp only [categoryStep, hcat, if_pos hne]
        exact changeCategory_falsy_inv w c j a row0 hrow hne hfalsy hinv
      · simp only [categoryStep, hcat, if_neg hne]
        exact hinv

/-- After the category step and an arbitrary signed-sum-preserving in-place
row modification (the date step or the identity), the amount and description
steps restore the balance invariant. -/
lemma catStep_tail_inv (w : Wallet) (j : Nat) (row0 : Entry) (cOpt : Option String)
    (a : Option Int) (ds : Option String) (g : Entry → Entry)
    (hrow : w.data[j]? = some row0)
    (hg1 : ∀ r, signed (g r) = signed r)
    (hg2 : ∀ r, (g r).category = r.category)
    (hg3 : ∀ r, (g r).amount = r.amount)
    (hinv : w.balance = sumSigned w.data) :
    (editTail { categoryStep w j row0 cOpt a with
        data := modifyRow (categoryStep w j row0 cOpt a).data j g }
      row0.category j a ds).balance
      = sumSigned (editTail { categoryStep w j row0 cOpt a with
          data := modifyRow (categoryStep w j row0 cOpt a).data j g }
        row0.category j a ds).data := by
  by_cases hfalsy : a = none ∨ a = some 0
  · have hinv1 := catStep_inv_falsy w j row0 cOpt a hrow hfalsy hinv
    refine editTail_falsy_inv _ _ _ _ _ hfalsy ?_
    show (categoryStep w j row0 cOpt a).balance
      = sumSigned (modifyRow (categoryStep w j row0 cOpt a).data j g)
    rw [sumSigned_modifyRow_keep _ j g hg1]
    exact hinv1
  · obtain ⟨m, rfl⟩ : ∃ m, a = some m := by
      cases a with
      | none => exact absurd (Or.inl rfl) hfalsy
      | some m => exact ⟨m, rfl⟩
    have hm : m ≠ 0 := fun h => hfalsy (Or.inr (by rw [h]))
    have hsame : ∀ v : Wallet, v = w →
        (editTail { v with data := modifyRow v.data j g }
          row0.category j (some m) ds).balance
        = sumSigned (editTail { v with data := modifyRow v.data j g }
            row0.category j (some m) ds).data := by
      intro v hv
      subst hv
      have hrow2 : ({ v with data := modifyRow v.data j g }).data[j]? = some (g row0) :=
        getElem?_modifyRow_self v.data j g row0 hrow
      have hinv2 : ({ v with data := modifyRow v.data j g }).balance
          = sumSigned ({ v with data := modifyRow v.data j g }).data := by
        show v.balance = sumSigned (modifyRow v.data j g)
        rw [sumSigned_modifyRow_keep _ j g hg1]
        exact hinv
      exact editTail_same_inv _ row0.category j (some m) ds (g row0) hrow2
        ((hg2 row0).symm) hinv2
    cases cOpt with
    | none => exact hsame _ rfl
    | some cs =>
      cases hcat : catOf cs with
      | none => simp only [categoryStep, hcat]; exact hsame _ rfl
      | some c =>
        by_cases hne : c ≠ row0.category
        · simp only [categoryStep, hcat, if_pos hne]
          rcases changeCategory_truthy_cases w c j m row0 hrow hm with heqw | ⟨hguard, hshape⟩
          · rw [heqw]
            exact hsame _ rfl
          · rw [hshape]
            set fc : Entry → Entry := fun r => { r with category := c } with hfc
            set W1 : Wallet :=
              { data := modifyRow w.data j fc, balance := w.balance } with hW1
            have hrow1 : W1.data[j]? = some (fc row0) :=
              getElem?_modifyRow_self w.data j fc row0 hrow
            have hrowv : ({ W1 with data := modifyRow W1.data j g }).data[j]?
                = some (g (fc row0)) :=
              getElem?_modifyRow_self W1.data j g (fc row0) hrow1
            have hamt : (g (fc row0)).amount = row0.amount := (hg3 (fc row0)).trans rfl
            have hcat2 : (g (fc row0)).category = c := (hg2 (fc row0)).trans rfl
            have hne2 : row0.category ≠ (g (fc row0)).category := by
              rw [hcat2]
              exact fun h => hne h.symm
            have hsum1 : sumSigned W1.data = sumSigned w.data - signed row0 + signed (fc row0) := by
              show sumSigned (modifyRow w.data j fc) = _
              exact sumSigned_modifyRow w.data j fc row0 hrow
            have hsumv : sumSigned ({ W1 with data := modifyRow W1.data j g }).data
                = sumSigned w.data - signed row0 + signed (fc row0) := by
              show sumSigned (modifyRow W1.data j g) = _
              rw [sumSigned_modifyRow_keep _ j g hg1]
              exact hsum1
            have hsg1 : signed (g (fc row0)) = signed (fc row0) := hg1 (fc row0)
            have hsg2 : signed { g (fc row0) with category := row0.category } = signed row0 := by
              simp only [signed, hamt]
            have hskew : ({ W1 with data := modifyRow W1.data j g }).balance
                = sumSigned ({ W1 with data := modifyRow W1.data j g }).data
                  + signed { g (fc row0) with category := row0.category }
                  - signed (g (fc row0)) := by
              show w.balance = _
              rw [hsumv, hsg1, hsg2]
              omega
            have hguardv : 0 ≤ (if (g (fc row0)).category = Category.expense then
                  ({ W1 with data := modifyRow W1.data j g }).balance - (g (fc row0)).amount - m
                else
                  ({ W1 with data := modifyRow W1.data j g }).balance + (g (fc row0)).amount + m) := by
              rw [hcat2, hamt]
              exact hguard
            exact editTail_skew_inv _ row0.category j m ds (g (fc row0)) hrowv hm hne2 hskew hguardv
        · simp only [categoryStep, hcat, if_neg hne]
          exact hsame _ rfl

/-- A successful edit_entry call preserves the balance invariant. -/
lemma edit_ok_inv (w : Wallet) (i : Int) (c d : Option String) (a : Option Int)
    (ds : Option String) (hinv : w.balance = sumSigned w.data) :
    (edit_entry w i c d a ds).2 = EditOutcome.ok →
    (edit_entry w i c d a ds).1.balance = sumSigned (edit_entry w i c d a ds).1.data := by
  unfold edit_entry
  split
  · intro _
    exact hinv
  · split
    · intro _
      exact hinv
    · next row0 hrow =>
      split
      · split
        · split
          · next dd hparse =>
            intro _
            exact catStep_tail_inv w i.toNat row0 c a ds (fun r => { r with date := dd })
              hrow (fun r => rfl) (fun r => rfl) (fun r => rfl) hinv
          · intro h
            exact EditOutcome.noConfusion h
        · intro _
          have H := catStep_tail_inv w i.toNat row0 c a ds (fun r => r)
            hrow (fun r => rfl) (fun r => rfl) (fun r => rfl) hinv
          rw [modifyRow_id] at H
          exact H
      · intro _
        have H := catStep_tail_inv w i.toNat row0 c a ds (fun r => r)
          hrow (fun r => rfl) (fun r => rfl) (fun r => rfl) hinv
        rw [modifyRow_id] at H
        exact H

lemma cat_ne_expense_iff (c : Category) :
    ¬c = Category.expense ↔ c = Category.income := by
  cases c <;> simp

lemma cat_ne_income_iff (c : Category) :
    ¬c = Category.income ↔ c = Category.expense := by
  cases c <;> simp

/-- A successful add_entry call preserves the balance invariant. -/
lemma add_ok_inv (w : Wallet) (today : Date) (c d : Option String) (a : Option Int)
    (ds : Option String) (hinv : w.balance = sumSigned w.data) :
    (add_entry w today c d a ds).2 = AddOutcome.ok →
    (add_entry w today c d a ds).1.balance = sumSigned (add_entry w today c d a ds).1.data := by
  unfold add_entry
  repeat' split
  all_goals
    first
      | (intro h; exact AddOutcome.noConfusion h)
      | (intro _
         simp_all [sumSigned_append, sumSigned_cons, sumSigned_nil, signed,
           cat_ne_expense_iff, cat_ne_income_iff]
         omega)
      | (intro _
         simp_all [sumSigned_append, sumSigned_cons, sumSigned_nil, signed,
           cat_ne_expense_iff, cat_ne_income_iff])

/-! ### The balance never goes negative when added amounts are positive -/

lemma changeCategory_nonneg (w : Wallet) (c : Category) (j : Nat) (a : Option Int)
    (h : 0 ≤ w.balance) : 0 ≤ (changeCategory w c j a).balance := by
  rcases hrow : w.data[j]? with _ | row
  · simp only [changeCategory, hrow]
    exact h
  · rcases a with _ | m
    · simp only [changeCategory, hrow]
      split <;> split <;> assumption
    · rcases eq_or_ne m 0 with rfl | hm
      · simp only [changeCategory, hrow, reduceIte]
        split <;> split <;> assumption
      · simp only [changeCategory, hrow, if_neg hm]
        split <;> split <;> assumption

lemma changeAmount_nonneg (w : Wallet) (pc : Category) (j : Nat) (m : Int)
    (h : 0 ≤ w.balance) : 0 ≤ (changeAmount w pc j m).balance := by
  rcases hrow : w.data[j]? with _ | row
  · simp only [changeAmount, hrow]
    exact h
  · simp only [changeAmount, hrow]
    repeat' split
    all_goals assumption

lemma descStep_nonneg (v : Wallet) (j : Nat) (ds : Option String)
    (h : 0 ≤ v.balance) : 0 ≤ (descStep v j ds).balance := by
  unfold descStep
  split
  · split
    · exact h
    · exact h
  · exact h

lemma editTail_nonneg (w : Wallet) (pc : Category) (j : Nat) (a : Option Int)
    (ds : Option String) (h : 0 ≤ w.balance) : 0 ≤ (editTail w pc j a ds).balance := by
  unfold editTail
  apply descStep_nonneg
  split
  · split
    · exact h
    · exact changeAmount_nonneg _ _ _ _ h
  · exact h

lemma categoryStep_nonneg (w : Wallet) (j : Nat) (row0 : Entry) (cOpt : Option String)
    (a : Option Int) (h : 0 ≤ w.balance) : 0 ≤ (categoryStep w j row0 cOpt a).balance := by
  unfold categoryStep
  split
  · split
    · split
      · exact changeCategory_nonneg _ _ _ _ h
      · exact h
    · exact h
  · exact h

/-- No edit_entry call can drive the balance negative: every balance write in
the edit path is guarded by a nonnegativity check. -/
lemma edit_nonneg (w : Wallet) (i : Int) (c d : Option String) (a : Option Int)
    (ds : Option String) (h : 0 ≤ w.balance) :
    0 ≤ (edit_entry w i c d a ds).1.balance := by
  unfold edit_entry
  split
  · exact h
  · split
    · exact h
    · split
      · split
        · split
          · exact editTail_nonneg _ _ _ _ _ (categoryStep_nonneg _ _ _ _ _ h)
          · exact categoryStep_nonneg _ _ _ _ _ h
        · exact editTail_nonneg _ _ _ _ _ (categoryStep_nonneg _ _ _ _ _ h)
      · exact editTail_nonneg _ _ _ _ _ (categoryStep_nonneg _ _ _ _ _ h)

/-- add_entry keeps the balance nonnegative provided the supplied amount is
positive (the Income path adds it unchecked, the Expense path is guarded). -/
lemma add_nonneg (w : Wallet) (today : Date) (c d : Option String) (m : Int)
    (ds : Option String) (hm : 0 < m) (h : 0 ≤ w.balance) :
    0 ≤ (add_entry w today c d (some m) ds).1.balance := by
  unfold add_entry
  repeat' split
  all_goals
    first
      | exact h
      | (simp_all [cat_ne_expense_iff, cat_ne_income_iff]; omega)
      | simp_all [cat_ne_expense_iff, cat_ne_income_iff]

/-- add_entry with a missing amount never changes the wallet. -/
lemma add_none_amount (w : Wallet) (today : Date) (c d : Option String)
    (ds : Option String) : (add_entry w today c d none ds).1 = w := by
  unfold add_entry
  split
  · split
    · rfl
    · split
      · rfl
      · split
        · rfl
        · rfl
  · rfl
  · rfl

/-! ### Invariants over call sequences -/

lemma runCalls_inv (today : Date) (cs : List Call) :
    ∀ w : Wallet, w.balance = sumSigned w.data →
      (runCalls today w cs).2 = true →
      (runCalls today w cs).1.balance = sumSigned (runCalls today w cs).1.data := by
  induction cs with
  | nil =>
    intro w h _
    exact h
  | cons c t ih =>
    intro w h hok
    simp only [runCalls] at hok ⊢
    rw [Bool.and_eq_true] at hok
    obtain ⟨h1, h2⟩ := hok
    refine ih (callOk today w c).1 ?_ h2
    cases c with
    | addCall cc dd aa dds =>
      simp only [callOk, beq_iff_eq] at h1
      exact add_ok_inv w today cc dd aa dds h h1
    | editCall i cc dd aa dds =>
      simp only [callOk, beq_iff_eq] at h1
      exact edit_ok_inv w i cc dd aa dds h h1

lemma runCalls_nonneg (today : Date) (cs : List Call) :
    ∀ w : Wallet, 0 ≤ w.balance → (∀ c ∈ cs, callPos c = true) →
      0 ≤ (runCalls today w cs).1.balance := by
  induction cs with
  | nil =>
    intro w h _
    exact h
  | cons c t ih =>
    intro w h hpos
    simp only [runCalls]
    refine ih (callOk today w c).1 ?_ (fun x hx => hpos x (List.mem_cons_of_mem c hx))
    cases c with
    | addCall cc dd aa dds =>
      cases aa with
      | none =>
        show 0 ≤ (add_entry w today cc dd none dds).1.balance
        rw [add_none_amount]
        exact h
      | some m =>
        have hm : 0 < m := by
          have := hpos _ (List.mem_cons_self _ t)
          simpa [callPos] using this
        exact add_nonneg w today cc dd m dds hm h
    | editCall i cc dd aa dds =>
      exact edit_nonneg w i cc dd aa dds h

/-! ### Claim theorems -/

lemma catOf_ne_empty {s : String} {c : Category} (h : catOf s = some c) : ¬ s = "" := by
  intro he
  subst he
  simp [catOf] at h

/-- C1 counterexample: the claim asserts that after any sequence of successful
addEntry calls the balance is nonnegative, but the single successful call
addEntry(Доход, amount = -100, description = "x") from the empty ledger
succeeds and leaves the balance at -100. -/
theorem c1_counterexample :
    (runCalls ⟨2024, 1, 1⟩ emptyWallet
      [Call.addCall (some "Доход") none (some (-100)) (some "x")]).2 = true ∧
    (runCalls ⟨2024, 1, 1⟩ emptyWallet
      [Call.addCall (some "Доход") none (some (-100)) (some "x")]).1.balance < 0 := by
  decide

/-- C1 (amended): starting from a loaded (or empty) ledger, after any
sequence of successful addEntry/editEntry calls the cached balance equals
sum(Income) - sum(Expense) over the stored rows, unconditionally (also for
non-positive added amounts); the balance is additionally nonnegative whenever
the initial balance is nonnegative and every amount passed to addEntry is
positive. -/
theorem c1_ledger_invariant (today : Date) (rows : List Entry) (cs : List Call)
    (hok : (runCalls today (loadWallet rows) cs).2 = true) :
    SumInv (runCalls today (loadWallet rows) cs).1 ∧
    (0 ≤ (loadWallet rows).balance → (∀ c ∈ cs, callPos c = true) →
      0 ≤ (runCalls today (loadWallet rows) cs).1.balance) := by
  constructor
  · rw [sumInv_iff]
    refine runCalls_inv today cs (loadWallet rows) ?_ hok
    rw [← sumInv_iff]
    rfl
  · intro hb hpos
    exact runCalls_nonneg today cs (loadWallet rows) hb hpos

/-- C1 witness: the invariant theorem applied to two concrete sequences: the
sum identity alone for a successful add of a negative Income amount, and both
conjuncts for add Income 100 followed by editing row 0 to amount 50. -/
theorem c1_witness :
    SumInv (runCalls ⟨2024, 1, 1⟩ (loadWallet [])
      [Call.addCall (some "Доход") none (some (-100)) (some "x")]).1 ∧
    SumInv (runCalls ⟨2024, 1, 1⟩ (loadWallet [])
      [Call.addCall (some "Доход") (some "2022-01-01") (some 100) (some "Test income"),
       Call.editCall 0 none none (some 50) none]).1 ∧
    0 ≤ (runCalls ⟨2024, 1, 1⟩ (loadWallet [])
      [Call.addCall (some "Доход") (some "2022-01-01") (some 100) (some "Test income"),
       Call.editCall 0 none none (some 50) none]).1.balance :=
  ⟨(c1_ledger_invariant ⟨2024, 1, 1⟩ []
      [Call.addCall (some "Доход") none (some (-100)) (some "x")] (by decide)).1,
   (c1_ledger_invariant ⟨2024, 1, 1⟩ []
      [Call.addCall (some "Доход") (some "2022-01-01") (some 100) (some "Test income"),
       Call.editCall 0 none none (some 50) none] (by decide)).1,
   (c1_ledger_invariant ⟨2024, 1, 1⟩ []
      [Call.addCall (some "Доход") (some "2022-01-01") (some 100) (some "Test income"),
       Call.editCall 0 none none (some 50) none] (by decide)).2 (by decide) (by decide)⟩

/-- C2 counterexample: the claim asserts that an addEntry call with a
non-positive amount reports a validation error and performs no mutation, but
addEntry(Доход, amount = -100, description = "x") on the empty wallet
succeeds, appends a row and sets the balance to -100. -/
theorem c2_counterexample :
    add_entry emptyWallet ⟨2024, 1, 1⟩ (some "Доход") none (some (-100)) (some "x")
      = ({ data := [⟨⟨2024, 1, 1⟩, Category.income, -100, "x"⟩], balance := -100 },
         AddOutcome.ok) := by
  decide

/-- C2 (amended): only a missing amount triggers the caught-TypeError
validation failure with no mutation; a non-positive numeric amount is not
rejected: with category Income it is applied unconditionally and a row is
appended, and with category Expense it is applied whenever the resulting
balance is nonnegative. -/
theorem c2_amount_validation (w : Wallet) (today : Date) (cs ds : String)
    (d : Option String) (c : Category) (hc : catOf cs = some c)
    (hds1 : ds ≠ "") (hds2 : ds.length < 64) :
    add_entry w today (some cs) d none (some ds) = (w, AddOutcome.typeError) ∧
    (∀ m : Int, m ≤ 0 → c = Category.income →
      add_entry w today (some cs) none (some m) (some ds)
        = ({ data := w.data ++ [⟨today, c, m, ds⟩], balance := w.balance + m },
           AddOutcome.ok)) ∧
    (∀ m : Int, c = Category.expense → 0 ≤ w.balance - m →
      add_entry w today (some cs) none (some m) (some ds)
        = ({ data := w.data ++ [⟨today, c, m, ds⟩], balance := w.balance - m },
           AddOutcome.ok)) := by
  have hcs : ¬ cs = "" := catOf_ne_empty hc
  refine ⟨?_, ?_, ?_⟩
  · simp only [add_entry, if_neg hcs, hc]
    rw [if_neg]
    simp only [not_or]
    exact ⟨hds1, fun h => h hds2⟩
  · intro m hm hci
    subst hci
    simp only [add_entry, if_neg hcs, hc]
    rw [if_neg]
    · simp
    · simp only [not_or]
      exact ⟨hds1, fun h => h hds2⟩
  · intro m hce hbal
    subst hce
    simp only [add_entry, if_neg hcs, hc]
    rw [if_neg]
    · rw [if_neg (by simp; omega)]
      simp
    · simp only [not_or]
      exact ⟨hds1, fun h => h hds2⟩

/-- C2 witness: the amended statement applied at concrete inputs: a missing
amount is rejected without mutation, and Income with amount -5 goes through. -/
theorem c2_witness :
    add_entry emptyWallet ⟨2024, 1, 1⟩ (some "Доход") none none (some "x")
      = (emptyWallet, AddOutcome.typeError) ∧
    add_entry emptyWallet ⟨2024, 1, 1⟩ (some "Доход") none (some (-5)) (some "x")
      = ({ data := [⟨⟨2024, 1, 1⟩, Category.income, -5, "x"⟩], balance := -5 },
         AddOutcome.ok) := by
  have h := c2_amount_validation emptyWallet ⟨2024, 1, 1⟩ "Доход" "x" none
    Category.income (by decide) (by decide) (by decide)
  refine ⟨h.1, ?_⟩
  have h2 := h.2.1 (-5) (by decide) rfl
  simpa using h2

/-- The test fixture ledger: one Income row of 100, balance 100. -/
def walletIncome100 : Wallet :=
  { data := [⟨⟨2022, 1, 1⟩, Category.income, 100, "Test income"⟩], balance := 100 }

/-- C3 counterexample: on a ledger holding one Income row of 100 (balance
100), the claim asserts editEntry(0, category=Expense, amount=50) updates both
the category and the amount of row 0 (with balance 50); in the code the
combined category check computes 100 - 100 - 50 = -50 < 0 and rejects the
category change, so the row's category stays Income, refuting the claimed
conjunction. -/
theorem c3_counterexample :
    ¬ ((edit_entry walletIncome100 0 (some "Расход") none (some 50) none).1.balance = 50 ∧
       (edit_entry walletIncome100 0 (some "Расход") none (some 50) none).1.data.map
           Entry.category
         = [Category.expense]) := by
  decide

/-- C3 (amended): starting from one Income row of 100 (balance 100),
editEntry(0, category=Expense, amount=50) succeeds with balance 50 and row 0's
amount updated to 50, but the category change is rejected (the tentative
balance 100 - 100 - 50 is negative), so the category remains Income and the
date and description are unchanged. -/
theorem c3_edit_scenario :
    edit_entry walletIncome100 0 (some "Расход") none (some 50) none
      = ({ data := [⟨⟨2022, 1, 1⟩, Category.income, 50, "Test income"⟩], balance := 50 },
         EditOutcome.ok) := by
  decide

/-- C4: an Expense addEntry with an amount strictly greater than the current
balance (category Расход, valid description, any date) is rejected with the
insufficient-funds error and the wallet (balance and rows) is unchanged. -/
theorem c4_insufficient_funds (w : Wallet) (today : Date) (d : Option String) (m : Int)
    (ds : String) (hds1 : ds ≠ "") (hds2 : ds.length < 64) (hm : w.balance < m) :
    add_entry w today (some "Расход") d (some m) (some ds) = (w, AddOutcome.insufficient) := by
  simp only [add_entry]
  rw [if_neg (by decide : ¬("Расход" = ""))]
  rw [if_neg (by simp only [not_or]; exact ⟨hds1, fun h => h hds2⟩)]
  rw [show catOf "Расход" = some Category.expense from rfl]
  dsimp only
  rw [if_pos (⟨rfl, by omega⟩ : Category.expense = Category.expense ∧ w.balance - m < 0)]

/-- C4 witness: the rejection theorem applied on the empty wallet with an
Expense of 50. -/
theorem c4_witness :
    add_entry emptyWallet ⟨2024, 1, 1⟩ (some "Расход") none (some 50) (some "x")
      = (emptyWallet, AddOutcome.insufficient) :=
  c4_insufficient_funds emptyWallet ⟨2024, 1, 1⟩ none 50 "x"
    (by decide) (by decide) (by decide)

/-- C5 counterexample: the claim asserts every addEntry stores a row whose
date is either the parsed date (when the string matches the pattern) or
today's date (otherwise); but for the string "2022-13-01" the anchored regex
matches while the strict parse fails, so pd.to_datetime raises an uncaught
ValueError: no row is stored at all and the balance is left already updated. -/
theorem c5_counterexample :
    add_entry emptyWallet ⟨2024, 1, 1⟩ (some "Доход") (some "2022-13-01") (some 100) (some "x")
      = ({ data := [], balance := 100 }, AddOutcome.dateRaise) := by
  decide

/-- C5 (amended): for an otherwise valid addEntry whose balance change is
accepted: a date string that matches the anchored pattern and parses strictly
is stored as that calendar date; an absent or non-matching date string stores
today's date; but a string that matches the pattern without parsing strictly
(wrong calendar component, trailing characters, or outside the Timestamp
range) raises an uncaught error that leaves the balance updated and no row
appended. -/
theorem c5_date_handling (w : Wallet) (today : Date) (cs ds : String) (c : Category)
    (m : Int) (hc : catOf cs = some c) (hds1 : ds ≠ "") (hds2 : ds.length < 64)
    (hfunds : ¬(c = Category.expense ∧ w.balance - m < 0)) :
    (∀ dstr dd, datePatternMatch dstr = true → parseYmd dstr = some dd →
      add_entry w today (some cs) (some dstr) (some m) (some ds)
        = ({ data := w.data ++ [⟨dd, c, m, ds⟩],
             balance := if c = Category.expense then w.balance - m else w.balance + m },
           AddOutcome.ok)) ∧
    (∀ dstr, datePatternMatch dstr = false →
      add_entry w today (some cs) (some dstr) (some m) (some ds)
        = ({ data := w.data ++ [⟨today, c, m, ds⟩],
             balance := if c = Category.expense then w.balance - m else w.balance + m },
           AddOutcome.ok)) ∧
    (add_entry w today (some cs) none (some m) (some ds)
        = ({ data := w.data ++ [⟨today, c, m, ds⟩],
             balance := if c = Category.expense then w.balance - m else w.balance + m },
           AddOutcome.ok)) ∧
    (∀ dstr, datePatternMatch dstr = true → parseYmd dstr = none →
      add_entry w today (some cs) (some dstr) (some m) (some ds)
        = ({ data := w.data,
             balance := if c = Category.expense then w.balance - m else w.balance + m },
           AddOutcome.dateRaise)) := by
  have hcs : ¬ cs = "" := catOf_ne_empty hc
  have hdesc : ¬ (ds = "" ∨ ¬ ds.length < 64) := by
    simp only [not_or]
    exact ⟨hds1, fun h => h hds2⟩
  refine ⟨?_, ?_, ?_, ?_⟩
  · intro dstr dd hpat hparse
    simp only [add_entry, if_neg hcs, if_neg hdesc, hc]
    rw [if_neg hfunds, hpat, if_pos rfl, hparse]
  · intro dstr hpat
    simp only [add_entry, if_neg hcs, if_neg hdesc, hc]
    rw [if_neg hfunds, hpat]
    rw [if_neg (by simp : ¬ (false = true))]
  · simp only [add_entry, if_neg hcs, if_neg hdesc, hc]
    rw [if_neg hfunds]
  · intro dstr hpat hparse
    simp only [add_entry, if_neg hcs, if_neg hdesc, hc]
    rw [if_neg hfunds, hpat, if_pos rfl, hparse]

/-- C5 witness: the date-handling theorem applied on the empty wallet with an
Income of 100: "2022-01-01" is stored as that date, "not-a-date" falls back to
today. -/
theorem c5_witness :
    add_entry emptyWallet ⟨2024, 1, 1⟩ (some "Доход") (some "2022-01-01") (some 100) (some "x")
      = ({ data := [⟨⟨2022, 1, 1⟩, Category.income, 100, "x"⟩],
           balance := if Category.income = Category.expense then emptyWallet.balance - 100
                      else emptyWallet.balance + 100 },
         AddOutcome.ok) ∧
    add_entry emptyWallet ⟨2024, 1, 1⟩ (some "Доход") (some "not-a-date") (some 100) (some "x")
      = ({ data := [⟨⟨2024, 1, 1⟩, Category.income, 100, "x"⟩],
           balance := if Category.income = Category.expense then emptyWallet.balance - 100
                      else emptyWallet.balance + 100 },
         AddOutcome.ok) := by
  have h := c5_date_handling emptyWallet ⟨2024, 1, 1⟩ "Доход" "x" Category.income 100
    (by decide) (by decide) (by decide) (by decide)
  exact ⟨h.1 "2022-01-01" ⟨2022, 1, 1⟩ (by decide) (by decide),
         h.2.1 "not-a-date" (by decide)⟩

lemma getElem?_some_lt {l : List Entry} {j : Nat} {e : Entry} (h : l[j]? = some e) :
    j < l.length := by
  by_contra hle
  rw [List.getElem?_eq_none (by omega)] at h
  cases h

lemma if_expense_income {α : Sort _} (x y : α) :
    (if Category.expense = Category.income then x else y) = y := if_neg (by decide)

/-- C7: an addEntry whose category is non-empty but not one of the two
recognized categories is rejected with no mutation: the wallet is returned
unchanged and the outcome is never ok (the generic validation message when
the description check already fails, otherwise the caught TypeError from the
failed balance-changer lookup). -/
theorem c7_unrecognized_category (w : Wallet) (today : Date) (cs : String)
    (d : Option String) (a : Option Int) (ds : Option String)
    (hcs : cs ≠ "") (hc : catOf cs = none) :
    (add_entry w today (some cs) d a ds).1 = w ∧
    (add_entry w today (some cs) d a ds).2 ≠ AddOutcome.ok := by
  cases ds with
  | none => exact ⟨rfl, fun h => AddOutcome.noConfusion h⟩
  | some s =>
    by_cases hv : s = "" ∨ ¬ s.length < 64
    · refine ⟨?_, ?_⟩ <;> simp only [add_entry, if_neg hcs, if_pos hv]
      exact fun h => AddOutcome.noConfusion h
    · refine ⟨?_, ?_⟩ <;> simp only [add_entry, if_neg hcs, if_neg hv, hc]
      exact fun h => AddOutcome.noConfusion h

/-- C7 witness: the spec scenario addEntry("Invalid category", "2022-01-01",
100, "Test income") leaves the empty wallet unchanged and does not succeed. -/
theorem c7_witness :
    (add_entry emptyWallet ⟨2024, 1, 1⟩ (some "Invalid category") (some "2022-01-01")
        (some 100) (some "Test income")).1 = emptyWallet ∧
    (add_entry emptyWallet ⟨2024, 1, 1⟩ (some "Invalid category") (some "2022-01-01")
        (some 100) (some "Test income")).2 ≠ AddOutcome.ok :=
  c7_unrecognized_category emptyWallet ⟨2024, 1, 1⟩ "Invalid category"
    (some "2022-01-01") (some 100) (some "Test income") (by decide) (by decide)

/-- C8: search_entries uses exactly the first supplied (truthy) criterion in
the priority order id, category, date, amount, whatever later criteria are
also supplied: a present id always does the single-row lookup (not-found when
out of range), a non-empty category returns the rows equal on category, then a
non-empty (coercible) date, then a non-zero amount; each later filter applies
only when every earlier criterion is absent or falsy. -/
theorem c8_search_priority (w : Wallet) :
    (∀ (i : Int) (c d : Option String) (a : Option Int),
        0 ≤ i → (h2 : i.toNat < w.data.length) →
        search_entries w (some i) c d a = SearchResult.row w.data[i.toNat]) ∧
    (∀ (i : Int) (c d : Option String) (a : Option Int),
        i < 0 ∨ (w.data.length : Int) ≤ i →
        search_entries w (some i) c d a = SearchResult.notFound) ∧
    (∀ (cs : String) (d : Option String) (a : Option Int), cs ≠ "" →
        search_entries w none (some cs) d a
          = SearchResult.rows (w.data.filter fun e => catStr e.category == cs)) ∧
    (∀ (c : Option String) (dstr : String) (a : Option Int) (dd : Date),
        (c = none ∨ c = some "") → dstr ≠ "" → parseYmd dstr = some dd →
        search_entries w none c (some dstr) a
          = SearchResult.rows (w.data.filter fun e => e.date == dd)) ∧
    (∀ (c d : Option String) (m : Int),
        (c = none ∨ c = some "") → (d = none ∨ d = some "") → m ≠ 0 →
        search_entries w none c d (some m)
          = SearchResult.rows (w.data.filter fun e => e.amount == m)) := by
  refine ⟨?_, ?_, ?_, ?_, ?_⟩
  · intro i c d a h1 h2
    simp only [search_entries, if_neg (by omega : ¬ i < 0),
      List.getElem?_eq_getElem h2]
  · intro i c d a h1
    rcases h1 with h1 | h1
    · simp only [search_entries, if_pos h1]
    · simp only [search_entries, if_neg (by omega : ¬ i < 0),
        List.getElem?_eq_none (by omega : w.data.length ≤ i.toNat)]
  · intro cs d a hcs
    simp only [search_entries]
    rw [if_pos hcs]
  · intro c dstr a dd hcf hd hparse
    rcases hcf with rfl | rfl <;>
      simp only [search_entries, searchByDate, if_neg (by simp : ¬ ("" ≠ "")),
        if_pos hd, hparse]
  · intro c d m hcf hdf hm
    rcases hcf with rfl | rfl <;> rcases hdf with rfl | rfl <;>
      simp only [search_entries, searchByDate, searchByAmount,
        if_neg (by simp : ¬ ("" ≠ "")), if_pos hm]

/-- C8 witness: on the fixture ledger, an id lookup wins over a
simultaneously supplied category, a category search filters by equality, and
an absent id with out-of-range value reports not-found. -/
theorem c8_witness :
    search_entries walletIncome100 (some 0) (some "Расход") none (some 77)
      = SearchResult.row walletIncome100.data[(0 : Int).toNat] ∧
    search_entries walletIncome100 none (some "Доход") none none
      = SearchResult.rows (walletIncome100.data.filter
          fun e => catStr e.category == "Доход") ∧
    search_entries walletIncome100 (some 5) none none none = SearchResult.notFound :=
  ⟨(c8_search_priority walletIncome100).1 0 (some "Расход") none (some 77)
      (by decide) (by decide),
   (c8_search_priority walletIncome100).2.2.1 "Доход" none none (by decide),
   (c8_search_priority walletIncome100).2.1 5 none none none (by decide)⟩

lemma append_getElem?_length (l : List Entry) (e : Entry) :
    (l ++ [e])[l.length]? = some e := by
  induction l with
  | nil => rfl
  | cons x t ih =>
    simp only [List.cons_append, List.length_cons, List.getElem?_cons_succ]
    exact ih

lemma append_getElem?_lt (l : List Entry) (e : Entry) (k : Nat) (h : k < l.length) :
    (l ++ [e])[k]? = l[k]? := by
  induction l generalizing k with
  | nil => simp at h
  | cons x t ih =>
    cases k with
    | zero => simp
    | succ k2 =>
      simp only [List.cons_append, List.getElem?_cons_succ]
      exact ih k2 (by simpa using h)

/-- C9: every successful addEntry appends exactly one new row: the new table
is the old table with one row appended, the appended row sits at position
len(entries-before) (which is its id, since ids are the 0-based positions),
and every pre-existing row is unchanged. -/
theorem c9_append_only (w : Wallet) (today : Date) (c d : Option String)
    (a : Option Int) (ds : Option String)
    (hok : (add_entry w today c d a ds).2 = AddOutcome.ok) :
    ∃ e, (add_entry w today c d a ds).1.data = w.data ++ [e] ∧
      (add_entry w today c d a ds).1.data[w.data.length]? = some e ∧
      ∀ k, k < w.data.length → (add_entry w today c d a ds).1.data[k]? = w.data[k]? := by
  revert hok
  unfold add_entry
  repeat' split
  all_goals intro hok
  all_goals
    first
      | exact absurd hok (by intro h; exact AddOutcome.noConfusion h)
      | exact ⟨_, rfl, append_getElem?_length w.data _,
          fun k hk => append_getElem?_lt w.data _ k hk⟩

/-- C9 witness: the append theorem applied to adding an Income of 150 to the
fixture ledger. -/
theorem c9_witness :
    ∃ e, (add_entry walletIncome100 ⟨2024, 1, 1⟩ (some "Доход") none (some 150)
        (some "Second test income")).1.data = walletIncome100.data ++ [e] ∧
      (add_entry walletIncome100 ⟨2024, 1, 1⟩ (some "Доход") none (some 150)
        (some "Second test income")).1.data[walletIncome100.data.length]? = some e ∧
      ∀ k, k < walletIncome100.data.length →
        (add_entry walletIncome100 ⟨2024, 1, 1⟩ (some "Доход") none (some 150)
          (some "Second test income")).1.data[k]? = walletIncome100.data[k]? :=
  c9_append_only walletIncome100 ⟨2024, 1, 1⟩ (some "Доход") none (some 150)
    (some "Second test income") (by decide)

lemma searchByDate_empty_str (w : Wallet) (a : Option Int) :
    searchByDate w (some "") a = searchByDate w none a := rfl

lemma searchByAmount_zero (w : Wallet) :
    searchByAmount w (some 0) = searchByAmount w none := rfl

/-- C10: falsy argument values behave as absent at the public interface:
searchEntries skips an empty-string category or date and a zero amount
(falling through to the next criterion or to the empty return), editEntry
with amount 0 behaves exactly like editEntry with no amount, while
searchEntries with id 0 is a genuine id lookup of row 0. -/
theorem c10_falsy_arguments :
    (∀ (w : Wallet) (d : Option String) (a : Option Int),
        search_entries w none (some "") d a = search_entries w none none d a) ∧
    (∀ (w : Wallet) (c : Option String) (a : Option Int),
        search_entries w none c (some "") a = search_entries w none c none a) ∧
    (∀ (w : Wallet) (c d : Option String),
        search_entries w none c d (some 0) = search_entries w none c d none) ∧
    (∀ (w : Wallet) (i : Int) (c d : Option String) (ds : Option String),
        edit_entry w i c d (some 0) ds = edit_entry w i c d none ds) ∧
    (∀ (w : Wallet) (c d : Option String) (a : Option Int),
        search_entries w (some 0) c d a
          = match w.data[0]? with
            | some e => SearchResult.row e
            | none => SearchResult.notFound) := by
  refine ⟨?_, ?_, ?_, ?_, ?_⟩
  · intro w d a
    rfl
  · intro w c a
    cases c with
    | none => rfl
    | some cs => simp only [search_entries, searchByDate_empty_str]
  · intro w c d
    cases c with
    | none =>
      cases d with
      | none => rfl
      | some dstr => simp only [search_entries, searchByDate, searchByAmount_zero]
    | some cs =>
      cases d with
      | none => simp only [search_entries, searchByDate, searchByAmount_zero]
      | some dstr => simp only [search_entries, searchByDate, searchByAmount_zero]
  · intro w i c d ds
    rfl
  · intro w c d a
    rcases h : w.data[0]? with _ | e <;>
      simp only [search_entries, if_neg (by omega : ¬ (0 : Int) < 0)] <;>
      rw [show ((0 : Int).toNat) = 0 from rfl, h]

end FinWallet
